import Mathlib

/-!
Verification of the Dog/Animal record module (`src/exa/generated_v1.c`).

The C file defines a base `Animal` record holding a 50-byte `name` buffer,
a derived `Dog` record embedding an `Animal` plus a 50-byte `secret`
buffer, a process-wide constant `Dog_species`, a constructor `Dog_new`
(malloc, `strncpy` of the name with explicit null termination, `strcpy`
of the literal "dog-secret"), and three operations `Dog_speak`,
`Dog_getSecret` and `dog_print`.

Embedding choices:
* A C byte buffer of size 50 is a `List Char` of length `capacity = 50`;
  the null byte is `cNull`.  The C string denoted by a buffer is the
  prefix before the first null byte (`readCStr`).
* A C string argument (`const char* name`) is the list of its characters
  before the terminator, hence a `List Char` not containing `cNull`.
* `malloc` is modelled by an `Option Dog` argument: `none` is allocation
  failure, `some d0` is a fresh record with arbitrary (garbage) contents.
* Global process state (the `Dog_species` global and the standard output
  stream) is threaded explicitly through every function as `ProcState`.
* `printf` is modelled by `formatPrintf`, which walks the format string
  and substitutes `%s` conversions from the argument list.
-/

/-- The null byte terminating C strings. -/
def cNull : Char := Char.ofNat 0

/-- `sizeof(((Animal*)0)->name)` and `sizeof(((Dog*)0)->secret)`: both
buffers are declared `char …[50]`. -/
def capacity : Nat := 50

/-- The base record: `typedef struct { char name[50]; } Animal;`.
The field holds the full 50-byte buffer. -/
structure Animal where
  name : List Char
deriving Repr, DecidableEq

/-- The derived record: `typedef struct { Animal base; char secret[50]; } Dog;`. -/
structure Dog where
  base : Animal
  secret : List Char
deriving Repr, DecidableEq

/-- A well-formed heap record: both buffers have their declared size. -/
abbrev wfDog (d : Dog) : Prop :=
  d.base.name.length = capacity ∧ d.secret.length = capacity

/-- A valid C string argument: no embedded null byte. -/
abbrev noNull (xs : List Char) : Prop := cNull ∉ xs

/-- The string a buffer denotes: its characters before the first null byte. -/
def readCStr (buf : List Char) : List Char :=
  buf.takeWhile (fun c => c ≠ cNull)

/-- `const char* Dog_species = "Canis familiaris";` -/
def speciesLit : List Char := "Canis familiaris".toList

/-- The literal `"dog-secret"` copied into the secret field. -/
def secretLit : List Char := "dog-secret".toList

/-- Mutable process-wide state: the `Dog_species` global cell and the
standard output stream (all bytes emitted so far). -/
structure ProcState where
  species : List Char
  stdout : List Char
deriving Repr, DecidableEq

/-- Process state at program start: `Dog_species` initialized to its
literal, nothing yet on standard output. -/
def initState : ProcState := { species := speciesLit, stdout := [] }

/-- `strncpy(dest, src, n)` restricted to a field of size `≥ n`:
writes the first `min (src.length) n` characters of `src`, pads with null
bytes up to `n` bytes total, and leaves the bytes of `dest` from index `n`
on unchanged. -/
def strncpyField (init src : List Char) (n : Nat) : List Char :=
  (src.take n ++ List.replicate (n - src.length) cNull) ++ init.drop n

/-- `strcpy(dest, src)`: writes `src` followed by the terminating null
byte, leaving the rest of `dest` unchanged. -/
def strcpyField (init src : List Char) : List Char :=
  (src ++ [cNull]) ++ init.drop (src.length + 1)

/-- `Dog_new`: on allocation failure returns `NULL`; otherwise
`strncpy(d->base.name, name, sizeof(d->base.name) - 1)`, then
`d->base.name[sizeof(d->base.name) - 1] = '\0'`, then
`strcpy(d->secret, "dog-secret")`. -/
def Dog_new (s : ProcState) (alloc : Option Dog) (name : List Char) :
    ProcState × Option Dog :=
  match alloc with
  | none => (s, none)
  | some d0 =>
    let nameField :=
      (strncpyField d0.base.name name (capacity - 1)).set (capacity - 1) cNull
    (s, some { base := { name := nameField },
               secret := strcpyField d0.secret secretLit })

/-- `printf` on a format string using only `%s` conversions: each `%s`
consumes one argument, every other character is emitted verbatim. -/
def formatPrintf : List Char → List (List Char) → List Char
  | [], _ => []
  | '%' :: 's' :: rest, a :: args => a ++ formatPrintf rest args
  | c :: rest, args => c :: formatPrintf rest args

/-- The format string of `Dog_speak`. -/
def fmtSpeak : List Char := "%s says: woof!\n".toList

/-- The format string of `dog_print`. -/
def fmtPrint : List Char := "[Dog] %s (species=%s)\n".toList

/-- `Dog_speak`: `printf("%s says: woof!\n", d->base.name);`. -/
def Dog_speak (s : ProcState) (d : Dog) : ProcState × Dog :=
  ({ s with stdout := s.stdout ++ formatPrintf fmtSpeak [readCStr d.base.name] }, d)

/-- `Dog_getSecret`: `return d->secret;` — yields the string the `secret`
buffer denotes, leaving state and record untouched. -/
def Dog_getSecret (s : ProcState) (d : Dog) : ProcState × Dog × List Char :=
  (s, d, readCStr d.secret)

/-- `dog_print`: `printf("[Dog] %s (species=%s)\n", d->base.name, Dog_species);`. -/
def dog_print (s : ProcState) (d : Dog) : ProcState × Dog :=
  ({ s with stdout :=
      s.stdout ++ formatPrintf fmtPrint [readCStr d.base.name, s.species] }, d)

/-- A concrete garbage heap record, for concrete evaluations. -/
def gDog : Dog :=
  { base := { name := List.replicate 50 'X' }, secret := List.replicate 50 'X' }

/-- The record produced by `Dog_new` from garbage record `gDog` and name
`"Rex"`, written out byte for byte. -/
def dRex : Dog :=
  { base := { name := "Rex".toList ++ List.replicate 47 cNull },
    secret := secretLit ++ cNull :: List.replicate 39 'X' }

/-! ## Helper lemmas about the buffer primitives -/

lemma readCStr_cons (a : Char) (xs : List Char) :
    readCStr (a :: xs) = if a = cNull then [] else a :: readCStr xs := by
  by_cases h : a = cNull <;> simp [readCStr, List.takeWhile_cons, h]

lemma readCStr_append_null (xs ys : List Char) (h : noNull xs) :
    readCStr (xs ++ cNull :: ys) = xs := by
  induction xs with
  | nil => simp [readCStr]
  | cons a as ih =>
    simp only [noNull, List.mem_cons, not_or] at h
    rw [List.cons_append, readCStr_cons, if_neg (Ne.symm h.1), ih h.2]

lemma set_append_of_length (xs : List Char) (b a : Char) (ys : List Char)
    (n : Nat) (h : n = xs.length) : (xs ++ b :: ys).set n a = xs ++ a :: ys := by
  subst h
  induction xs with
  | nil => rfl
  | cons c cs ih => simp [ih]

lemma padded_length (src : List Char) (n : Nat) :
    (src.take n ++ List.replicate (n - src.length) cNull).length = n := by
  simp only [List.length_append, List.length_take, List.length_replicate]
  omega

/-- The name field written by `Dog_new` on a well-sized buffer: the first
`capacity - 1` characters of the input, null padding, and the explicitly
written terminator at index `capacity - 1`. -/
lemma nameField_eq (buf name : List Char) (hg : buf.length = capacity) :
    (strncpyField buf name (capacity - 1)).set (capacity - 1) cNull
      = (name.take (capacity - 1)
          ++ List.replicate (capacity - 1 - name.length) cNull) ++ [cNull] := by
  obtain ⟨b, hb⟩ : ∃ b, buf.drop (capacity - 1) = [b] := by
    apply List.length_eq_one.mp
    rw [List.length_drop, hg]
    decide
  rw [strncpyField, hb]
  exact set_append_of_length _ b cNull [] _ (padded_length name (capacity - 1)).symm

/-- The secret field written by `Dog_new`: the literal, its terminator,
and the untouched garbage tail of the buffer. -/
lemma secret_eq (buf : List Char) :
    strcpyField buf secretLit
      = secretLit ++ cNull :: buf.drop (secretLit.length + 1) := by
  simp [strcpyField, List.append_assoc]

lemma readCStr_secret (buf : List Char) :
    readCStr (strcpyField buf secretLit) = secretLit := by
  rw [secret_eq]
  exact readCStr_append_null _ _ (by decide)

lemma Dog_new_some (s : ProcState) (g : Dog) (name : List Char) :
    (Dog_new s (some g) name).2
      = some ⟨⟨(strncpyField g.base.name name (capacity - 1)).set (capacity - 1) cNull⟩,
          strcpyField g.secret secretLit⟩ := rfl

/-! ## Claim theorems -/

/-- C1: for every input name longer than `capacity - 1` (49) characters,
`Dog_new` on success stores exactly the first 49 characters of the input
in the record's name field, null-terminated at index 49, and the 50-byte
field keeps its size (no write past it); in particular a name of exactly
50 characters loses one character and is still null-terminated. -/
theorem C1_long_name_truncated (s : ProcState) (g : Dog) (name : List Char)
    (hg : wfDog g) (hn : noNull name) (hlong : capacity - 1 < name.length) :
    ∃ d, (Dog_new s (some g) name).2 = some d ∧
      d.base.name.length = capacity ∧
      readCStr d.base.name = name.take (capacity - 1) ∧
      d.base.name[capacity - 1]? = some cNull := by
  have h0 : capacity - 1 - name.length = 0 :=
    Nat.sub_eq_zero_of_le (Nat.le_of_lt hlong)
  have hfield : (strncpyField g.base.name name (capacity - 1)).set (capacity - 1) cNull
      = name.take (capacity - 1) ++ [cNull] := by
    rw [nameField_eq g.base.name name hg.1, h0]
    simp
  have htlen : (name.take (capacity - 1)).length = capacity - 1 := by
    simp only [List.length_take, capacity] at hlong ⊢
    omega
  refine ⟨⟨⟨name.take (capacity - 1) ++ [cNull]⟩,
      strcpyField g.secret secretLit⟩, ?_, ?_, ?_, ?_⟩
  · rw [Dog_new_some, hfield]
  · simp only [List.length_append, List.length_cons, List.length_nil, htlen]
    decide
  · exact readCStr_append_null _ [] (fun m => hn (List.mem_of_mem_take m))
  · have h := List.getElem?_concat_length (name.take (capacity - 1)) cNull
    rwa [htlen] at h

/-- Witness for C1: a 50-character name (exactly `capacity`) is stored as
its first 49 characters, null-terminated — shortened by one character. -/
theorem C1_long_name_truncated_witness :
    wfDog gDog ∧ noNull (List.replicate capacity 'a') ∧
      capacity - 1 < (List.replicate capacity 'a').length ∧
      ∃ d, (Dog_new initState (some gDog) (List.replicate capacity 'a')).2 = some d ∧
        d.base.name.length = capacity ∧
        readCStr d.base.name = (List.replicate capacity 'a').take (capacity - 1) ∧
        d.base.name[capacity - 1]? = some cNull :=
  ⟨by decide, by decide, by decide,
    C1_long_name_truncated initState gDog (List.replicate capacity 'a')
      (by decide) (by decide) (by decide)⟩

/-- C2: every input name of at most `capacity - 1` (49) characters,
including the empty string, is stored exactly, unchanged, in the name
field of the constructed record. -/
theorem C2_short_name_stored_exactly (s : ProcState) (g : Dog) (name : List Char)
    (hg : wfDog g) (hn : noNull name) (hshort : name.length ≤ capacity - 1) :
    ∃ d, (Dog_new s (some g) name).2 = some d ∧
      d.base.name.length = capacity ∧
      readCStr d.base.name = name := by
  have htake : name.take (capacity - 1) = name := List.take_of_length_le hshort
  have hfield : (strncpyField g.base.name name (capacity - 1)).set (capacity - 1) cNull
      = name ++ cNull :: List.replicate (capacity - 1 - name.length) cNull := by
    rw [nameField_eq g.base.name name hg.1, htake, List.append_assoc]
    congr 1
    rw [← List.replicate_succ', List.replicate_succ]
  refine ⟨⟨⟨name ++ cNull :: List.replicate (capacity - 1 - name.length) cNull⟩,
      strcpyField g.secret secretLit⟩, ?_, ?_, ?_⟩
  · rw [Dog_new_some, hfield]
  · simp only [List.length_append, List.length_cons, List.length_replicate, capacity]
    simp only [capacity] at hshort
    omega
  · exact readCStr_append_null _ _ hn

/-- Witness for C2: the empty name is stored exactly. -/
theorem C2_short_name_stored_exactly_witness :
    wfDog gDog ∧ noNull ([] : List Char) ∧ ([] : List Char).length ≤ capacity - 1 ∧
      ∃ d, (Dog_new initState (some gDog) []).2 = some d ∧
        d.base.name.length = capacity ∧
        readCStr d.base.name = [] :=
  ⟨by decide, by decide, by decide,
    C2_short_name_stored_exactly initState gDog []
      (by decide) (by decide) (by decide)⟩

/-- C4: construction fails exactly when the allocator fails (`alloc = none`),
returning the null result, and it has no side effect on the process state;
no other failure mode exists. -/
theorem C4_fails_iff_alloc_fails (s : ProcState) (alloc : Option Dog)
    (name : List Char) :
    (Dog_new s alloc name).1 = s ∧
    ((Dog_new s alloc name).2 = none ↔ alloc = none) := by
  cases alloc <;> simp [Dog_new]

/-- C5: `Dog_speak` appends to standard output exactly the line
`"<name> says: woof!\n"` with the record's stored name substituted, and
nothing else; it returns no value (the record comes back unchanged). -/
theorem C5_speak_output (s : ProcState) (d : Dog) :
    Dog_speak s d
      = ({ s with stdout := s.stdout
            ++ (readCStr d.base.name ++ " says: woof!\n".toList) }, d) := rfl

/-- C9: no operation mutates a constructed record: `Dog_speak`,
`Dog_getSecret` and `dog_print` all return the record with its name and
secret fields unchanged. -/
theorem C9_operations_leave_record_unchanged (s : ProcState) (d : Dog) :
    (Dog_speak s d).2 = d ∧ (Dog_getSecret s d).2.1 = d ∧ (dog_print s d).2 = d :=
  ⟨rfl, rfl, rfl⟩

/-- C3: every successfully constructed record has secret field denoting
exactly `"dog-secret"`, whatever the input name; `Dog_getSecret` returns
exactly that string, and no operation of the interface changes the secret
field afterwards. -/
theorem C3_secret_always_literal (s : ProcState) (g : Dog) (name : List Char)
    (d : Dog) (hd : (Dog_new s (some g) name).2 = some d) :
    readCStr d.secret = "dog-secret".toList ∧
    (∀ s2, (Dog_getSecret s2 d).2.2 = "dog-secret".toList) ∧
    (∀ s2, (Dog_speak s2 d).2.secret = d.secret) ∧
    (∀ s2, (Dog_getSecret s2 d).2.1.secret = d.secret) ∧
    (∀ s2, (dog_print s2 d).2.secret = d.secret) := by
  rw [Dog_new_some] at hd
  injection hd with h
  subst h
  exact ⟨readCStr_secret g.secret, fun s2 => readCStr_secret g.secret,
    fun s2 => rfl, fun s2 => rfl, fun s2 => rfl⟩

/-- Witness for C3: the record built from name `"Rex"` has secret
`"dog-secret"`, and the operations preserve it. -/
theorem C3_secret_always_literal_witness :
    (Dog_new initState (some gDog) "Rex".toList).2 = some dRex ∧
    (readCStr dRex.secret = "dog-secret".toList ∧
     (∀ s2, (Dog_getSecret s2 dRex).2.2 = "dog-secret".toList) ∧
     (∀ s2, (Dog_speak s2 dRex).2.secret = dRex.secret) ∧
     (∀ s2, (Dog_getSecret s2 dRex).2.1.secret = dRex.secret) ∧
     (∀ s2, (dog_print s2 dRex).2.secret = dRex.secret)) :=
  ⟨by decide,
   C3_secret_always_literal initState gDog "Rex".toList dRex (by decide)⟩

/-- C6: `dog_print` appends to standard output exactly the line
`"[Dog] <name> (species=Canis familiaris)\n"`; the species text comes from
the process-wide `Dog_species` cell, not from per-record state. -/
theorem C6_print_emits_summary_line (s : ProcState) (d : Dog)
    (hsp : s.species = speciesLit) :
    dog_print s d
      = ({ s with stdout := s.stdout
            ++ ("[Dog] ".toList
              ++ (readCStr d.base.name
                ++ " (species=Canis familiaris)\n".toList)) }, d) := by
  have h : formatPrintf fmtPrint [readCStr d.base.name, speciesLit]
      = "[Dog] ".toList ++ (readCStr d.base.name
          ++ " (species=Canis familiaris)\n".toList) := rfl
  rw [dog_print, hsp, h]

/-- Witness for C6: printing the garbage-initialized record in the initial
process state emits the summary line for its 50-`'X'` name. -/
theorem C6_print_emits_summary_line_witness :
    initState.species = speciesLit ∧
    dog_print initState gDog
      = ({ initState with stdout := initState.stdout
            ++ ("[Dog] ".toList
              ++ (readCStr gDog.base.name
                ++ " (species=Canis familiaris)\n".toList)) }, gDog) :=
  ⟨rfl, C6_print_emits_summary_line initState gDog rfl⟩

/-- C7: the species label is a single process-wide constant equal to
`"Canis familiaris"`: it is held once in the process state (not in any
record), and no operation of the program ever changes it. -/
theorem C7_species_immutable_constant :
    initState.species = "Canis familiaris".toList ∧
    (∀ s alloc name, (Dog_new s alloc name).1.species = s.species) ∧
    (∀ s d, (Dog_speak s d).1.species = s.species) ∧
    (∀ s d, (Dog_getSecret s d).1.species = s.species) ∧
    (∀ s d, (dog_print s d).1.species = s.species) := by
  refine ⟨rfl, ?_, fun s d => rfl, fun s d => rfl, fun s d => rfl⟩
  intro s alloc name
  cases alloc <;> rfl

/-- C8: the unguarded copy of the literal `"dog-secret"` (10 characters
plus terminator) always fits in the 50-byte secret field: the field keeps
its size, denotes the literal, and carries the terminator at index 10. -/
theorem C8_secret_copy_in_bounds (s : ProcState) (g : Dog) (name : List Char)
    (d : Dog) (hg : wfDog g) (hd : (Dog_new s (some g) name).2 = some d) :
    secretLit.length + 1 ≤ capacity ∧
    d.secret.length = capacity ∧
    readCStr d.secret = secretLit ∧
    d.secret[secretLit.length]? = some cNull := by
  rw [Dog_new_some] at hd
  injection hd with h
  subst h
  refine ⟨by decide, ?_, readCStr_secret g.secret, ?_⟩
  · show (strcpyField g.secret secretLit).length = capacity
    rw [secret_eq]
    simp only [List.length_append, List.length_cons, List.length_drop, hg.2]
    decide
  · show (strcpyField g.secret secretLit)[secretLit.length]? = some cNull
    rw [secret_eq, List.getElem?_append_right (Nat.le_refl _)]
    simp

/-- Witness for C8: the secret copy for the record built from `"Rex"`. -/
theorem C8_secret_copy_in_bounds_witness :
    wfDog gDog ∧ (Dog_new initState (some gDog) "Rex".toList).2 = some dRex ∧
    (secretLit.length + 1 ≤ capacity ∧
     dRex.secret.length = capacity ∧
     readCStr dRex.secret = secretLit ∧
     dRex.secret[secretLit.length]? = some cNull) :=
  ⟨by decide, by decide,
   C8_secret_copy_in_bounds initState gDog "Rex".toList dRex (by decide) (by decide)⟩

/-- C10: the constructed record depends only on the first 49 characters of
the input name: two names agreeing on their first 49 characters produce the
same construction result, hence identical records and identical behavior of
every subsequent operation. -/
theorem C10_only_first_49_chars_matter (s : ProcState) (g : Dog)
    (n1 n2 : List Char) (h : n1.take (capacity - 1) = n2.take (capacity - 1)) :
    Dog_new s (some g) n1 = Dog_new s (some g) n2 ∧
    (∀ d1 d2, (Dog_new s (some g) n1).2 = some d1 →
      (Dog_new s (some g) n2).2 = some d2 →
      d1 = d2 ∧ (∀ s2, Dog_speak s2 d1 = Dog_speak s2 d2) ∧
      (∀ s2, Dog_getSecret s2 d1 = Dog_getSecret s2 d2) ∧
      (∀ s2, dog_print s2 d1 = dog_print s2 d2)) := by
  have hmin : min (capacity - 1) n1.length = min (capacity - 1) n2.length := by
    have hc := congrArg List.length h
    simpa [List.length_take] using hc
  have hrep : capacity - 1 - n1.length = capacity - 1 - n2.length := by omega
  have hcopy : strncpyField g.base.name n1 (capacity - 1)
      = strncpyField g.base.name n2 (capacity - 1) := by
    rw [strncpyField, strncpyField, h, hrep]
  have hnew : Dog_new s (some g) n1 = Dog_new s (some g) n2 := by
    simp only [Dog_new, hcopy]
  refine ⟨hnew, fun d1 d2 hd1 hd2 => ?_⟩
  rw [hnew, hd2] at hd1
  injection hd1 with hdd
  subst hdd
  exact ⟨rfl, fun s2 => rfl, fun s2 => rfl, fun s2 => rfl⟩

/-- Witness for C10: two 50+-character names sharing their first 49
characters construct equal records. -/
theorem C10_only_first_49_chars_matter_witness :
    (List.replicate 49 'a' ++ ['b']).take (capacity - 1)
      = (List.replicate 49 'a' ++ ['c', 'd']).take (capacity - 1) ∧
    Dog_new initState (some gDog) (List.replicate 49 'a' ++ ['b'])
      = Dog_new initState (some gDog) (List.replicate 49 'a' ++ ['c', 'd']) :=
  ⟨by decide,
   (C10_only_first_49_chars_matter initState gDog
      (List.replicate 49 'a' ++ ['b']) (List.replicate 49 'a' ++ ['c', 'd'])
      (by decide)).1⟩
